import Mathlib

/-!
Shallow embedding of `audiotranscriber.py` (class `AudioTranscriber`) and
verification of the specification's claims about it.

External effects (network, filesystem, the speech-to-text service, the
document store) are modelled by explicit oracles and explicit state records;
the control flow of each Python function is translated branch for branch.
-/

namespace AudioTranscriber

/-! ## Filename normalizer: `clean_filename` (audiotranscriber.py lines 74-76)

`re.sub(r'[\\/*?:"<>|]', "_", filename)` replaces every character that
matches the single-character class with one underscore, scanning left to
right.  `invalidChars` is exactly that character class. -/

def invalidChars : List Char := ['\\', '/', '*', '?', ':', '"', '<', '>', '|']

def cleanChars : List Char → List Char
  | [] => []
  | c :: cs => (if c ∈ invalidChars then '_' else c) :: cleanChars cs

def clean_filename (s : String) : String := String.mk (cleanChars s.data)

/-! ## Transcription client: `transcribe_audio` (lines 110-161)

The HTTP layer is an oracle: each phase's `requests` call either raises
(`Except.error`, covering network errors and missing JSON keys, all caught
by the function's single `try/except`) or returns a status code plus the
JSON field the code extracts.  The polling loop (lines 145-157) is embedded
with explicit fuel; `none` means the loop has not terminated within the
given fuel. -/

inductive PollResp
  | exn
  | resp (status : String) (text : Option String)
deriving DecidableEq

structure TranscribeOracle where
  uploadResp : Except Unit (Nat × String)
  submitResp : Except Unit (Nat × String)
  pollResps : Nat → PollResp

/-- Outcome of one poll response if it ends the loop: an exception is caught
by the outer handler and yields `None`; `completed` returns the `text` field
(`none` models a missing/null text, which also yields `None`); `error`
yields `None`; any other status continues the loop. -/
def terminalOutcome : PollResp → Option (Option String)
  | .exn => some none
  | .resp s t => if s = "completed" then some t else if s = "error" then some none else none

/-- The `while True` polling loop of lines 145-157.  Returns
`some (result, elapsed)` where `elapsed` counts the `time.sleep(5)` calls
executed (5 time-units after each non-terminal response), or `none` if the
loop has not terminated within `fuel` iterations. -/
def pollAux (resps : Nat → PollResp) : Nat → Nat → Option (Option String × Nat)
  | 0, _ => none
  | fuel + 1, i =>
    match terminalOutcome (resps i) with
    | some r => some (r, 0)
    | none => (pollAux resps fuel (i + 1)).map (fun p => (p.1, p.2 + 5))

/-- `transcribe_audio`: upload (non-200 or exception → `None`), submit
(non-200 or exception → `None`), then poll.  The result is
`some r` with `r : Option String` the Python return value (`none` = the
Python `None` failure signal), or `none` when polling has not terminated. -/
def transcribe_audio (o : TranscribeOracle) (fuel : Nat) : Option (Option String) :=
  match o.uploadResp with
  | .error _ => some none
  | .ok (code, _) =>
    if code ≠ 200 then some none
    else
      match o.submitResp with
      | .error _ => some none
      | .ok (code2, _) =>
        if code2 ≠ 200 then some none
        else (pollAux o.pollResps fuel 0).map (fun p => p.1)

/-! ## Publisher: `upload_to_google_docs` (lines 163-203)

The Drive/Docs services are modelled by `DriveState`: the list of existing
documents (id, name) in creation order, each document's content as a list of
inserted blocks (newest first, since the code inserts at index 1, i.e. the
document start), the next fresh document id, and an instrumentation counter
`lookups` recording how many `files().list` queries were executed.
`PubEffects` says which of the three external calls raises when executed;
all exceptions are caught by the function's `try/except`, which returns the
Python `None` (modelled `none`). -/

structure PubEffects where
  lookupRaises : Bool
  createRaises : Bool
  appendRaises : Bool
deriving DecidableEq

def okPub : PubEffects := ⟨false, false, false⟩

structure DriveState where
  docs : List (Nat × String)
  contents : List (Nat × List String)
  nextId : Nat
  lookups : Nat
deriving DecidableEq

/-- Association lookup on a list of key-value pairs (first match wins),
modelling a Python `dict` built by inserting fresh keys at the end. -/
def alookup {β : Type} : List (String × β) → String → Option β
  | [], _ => none
  | (k, v) :: rest, key => if key = k then some v else alookup rest key

/-- First document whose name matches, modelling `results.get('files', [])`
followed by `items[0]`. -/
def findDoc : List (Nat × String) → String → Option (Nat × String)
  | [], _ => none
  | d :: rest, name => if d.2 = name then some d else findDoc rest name

def docName (channelName : String) : String := channelName ++ " Transcriptions"

def separatorLine : String := String.mk (List.replicate 80 '=')

/-- The block inserted at index 1 of the document (line 189). -/
def formatBlock (audioName text : String) : String :=
  "## " ++ audioName ++ " ##\n\n" ++ text ++ "\n\n" ++ separatorLine ++ "\n\n"

/-- Insert a block at the front of a document's content (index-1 insertion:
new content lands before older content). -/
def insertBlock : List (Nat × List String) → Nat → String → List (Nat × List String)
  | [], docId, block => [(docId, [block])]
  | (i, blocks) :: rest, docId, block =>
    if i = docId then (i, block :: blocks) :: rest
    else (i, blocks) :: insertBlock rest docId block

/-- `upload_to_google_docs`: look the document up by name, create it when
absent, then batch-insert the formatted block at index 1.  Returns the
document id on success and `none` when any step raised (the exception is
caught and logged, lines 201-203). -/
def upload_to_google_docs (channelName audioName text : String) (e : PubEffects)
    (st : DriveState) : Option Nat × DriveState :=
  if e.lookupRaises then (none, st)
  else
    let st1 : DriveState := { st with lookups := st.lookups + 1 }
    match findDoc st1.docs (docName channelName) with
    | none =>
      if e.createRaises then (none, st1)
      else
        let docId := st1.nextId
        let st2 : DriveState :=
          { st1 with docs := st1.docs ++ [(docId, docName channelName)], nextId := st1.nextId + 1 }
        if e.appendRaises then (none, st2)
        else (some docId, { st2 with contents := insertBlock st2.contents docId (formatBlock audioName text) })
    | some d =>
      if e.appendRaises then (none, st1)
      else (some d.1, { st1 with contents := insertBlock st1.contents d.1 (formatBlock audioName text) })

/-! ## Pipeline controller: `process_channel` (lines 205-271)

One message of the stream, together with the outcome of every external
effect its processing performs: whether `download_media` raises, the result
of `calculate_md5` (which catches its own exceptions and returns `None`,
lines 61-72), whether `os.remove` raises in the duplicate branch, the value
returned by `transcribe_audio` (total over failures, see `spec_c6`),
whether the local transcript write raises, and the publisher call's
effects. -/

structure Msg where
  id : Nat
  isAudio : Bool
  fileName : Option String
  date : String
  downloadRaises : Bool
  md5 : Option String
  removeRaises : Bool
  transcription : Option String
  writeRaises : Bool
  pubEff : PubEffects
deriving DecidableEq

/-- Exceptions that escape the per-item body of the loop: the surrounding
`try/except` of `process_channel` logs them and re-raises (lines 269-271),
aborting the run. -/
inductive StepError
  | downloadError
  | removeError
  | writeError
deriving DecidableEq

/-- Run-scoped state of `process_channel` plus the local filesystem and the
document store, with instrumentation logs.  `fileCounter` and `fileHashes`
are the Python locals of lines 207-208; `files` is the set of paths present
in the download directory; `transcripts` the transcript files written
(latest write first); `seqLog` records, for every audio item, the sequence
number used in its filename and whether the item was retained (not
discarded as a duplicate); `transcribeCalls` the `(md5, path)` of every
file passed to `transcribe_audio`; `removed` the `(md5, path)` of every
duplicate deleted by `os.remove`; `publishCalls` the `(name, text)` of
every `upload_to_google_docs` invocation. -/
structure RunState where
  fileCounter : Nat
  fileHashes : List (String × String)
  files : List String
  transcripts : List (String × String)
  seqLog : List (Nat × Bool)
  transcribeCalls : List (Option String × String)
  removed : List (String × String)
  publishCalls : List (String × String)
  drive : DriveState
deriving DecidableEq

structure Config where
  downloadDir : String
  transcriptionDir : String
deriving DecidableEq

def joinPath (dir name : String) : String := dir ++ "/" ++ name

def fsAdd (fs : List String) (p : String) : List String :=
  if p ∈ fs then fs else fs ++ [p]

def fsRemove (fs : List String) (p : String) : List String :=
  fs.filter (fun q => ¬ q = p)

/-- `f"{file_counter:03d}"`: decimal, zero-padded to width 3. -/
def pad3 (n : Nat) : String :=
  let s := toString n
  if s.length < 3 then String.mk (List.replicate (3 - s.length) '0') ++ s else s

/-- `getattr(file, 'file_name', f"audio_{message.id}.mp3")` followed by the
falsy check of lines 226-227. -/
def origNameOf (m : Msg) : String :=
  match m.fileName with
  | none => "audio_" ++ toString m.id ++ ".mp3"
  | some s => if s = "" then "audio_" ++ toString m.id ++ ".mp3" else s

/-- `new_filename` of line 231 (the original name is cleaned on line 229). -/
def fnameOf (channelName : String) (counter : Nat) (m : Msg) : String :=
  channelName ++ "_" ++ pad3 counter ++ "_" ++ clean_filename (origNameOf m) ++ "_" ++ m.date ++ ".mp3"

def downloadPathOf (cfg : Config) (channelName : String) (counter : Nat) (m : Msg) : String :=
  joinPath cfg.downloadDir (fnameOf channelName counter m)

def transcriptPathOf (cfg : Config) (channelName : String) (counter : Nat) (m : Msg) : String :=
  joinPath cfg.transcriptionDir (fnameOf channelName counter m ++ ".txt")

/-- Is the item discarded as a duplicate, i.e. line 240:
`if file_md5 and file_md5 in file_hashes`. -/
def isDup (m : Msg) (st : RunState) : Bool :=
  match m.md5 with
  | some f => (alookup st.fileHashes f).isSome
  | none => false

/-- Lines 248-262: record the transcription call, and when the result is
truthy write the transcript locally and publish it; finally advance the
counter. -/
def transcribeStep (cfg : Config) (channelName : String) (m : Msg) (fname filePath : String)
    (st : RunState) : Except StepError RunState :=
  let st1 : RunState := { st with transcribeCalls := st.transcribeCalls ++ [(m.md5, filePath)] }
  match m.transcription with
  | some text =>
    if text = "" then .ok { st1 with fileCounter := st1.fileCounter + 1 }
    else if m.writeRaises then .error .writeError
    else
      let tPath := joinPath cfg.transcriptionDir (fname ++ ".txt")
      let st2 : RunState := { st1 with transcripts := (tPath, text) :: st1.transcripts }
      let pub := upload_to_google_docs channelName fname text m.pubEff st2.drive
      .ok { st2 with
              publishCalls := st2.publishCalls ++ [(fname, text)],
              drive := pub.2,
              fileCounter := st2.fileCounter + 1 }
  | none => .ok { st1 with fileCounter := st1.fileCounter + 1 }

/-- The body of the `async for` loop, lines 219-265, for one message. -/
def process_item (cfg : Config) (channelName : String) (m : Msg) (st : RunState) :
    Except StepError RunState :=
  if m.isAudio then
    let fname := fnameOf channelName st.fileCounter m
    let filePath := joinPath cfg.downloadDir fname
    if m.downloadRaises then .error .downloadError
    else
      let st1 : RunState :=
        { st with files := fsAdd st.files filePath,
                  seqLog := st.seqLog ++ [(st.fileCounter, !isDup m st)] }
      match m.md5 with
      | some f =>
        if (alookup st.fileHashes f).isSome then
          if m.removeRaises then .error .removeError
          else .ok { st1 with files := fsRemove st1.files filePath,
                              removed := st1.removed ++ [(f, filePath)] }
        else
          transcribeStep cfg channelName m fname filePath
            { st1 with fileHashes := st1.fileHashes ++ [(f, filePath)] }
      | none => transcribeStep cfg channelName m fname filePath st1
  else .ok st

/-- The message iteration of `process_channel`: any exception escaping the
per-item body aborts the whole run (the outer handler re-raises). -/
def process_channel (cfg : Config) (channelName : String) :
    List Msg → RunState → Except StepError RunState
  | [], st => .ok st
  | m :: rest, st =>
    match process_item cfg channelName m st with
    | .ok st2 => process_channel cfg channelName rest st2
    | .error e => .error e

/-- Initial run state of lines 207-208: counter 1, empty hash index, with a
given pre-existing document store. -/
def initState (drive : DriveState) : RunState :=
  { fileCounter := 1, fileHashes := [], files := [], transcripts := [],
    seqLog := [], transcribeCalls := [], removed := [], publishCalls := [],
    drive := drive }

/-- A whole run over a channel: the channel name is the cleaned entity
title (line 213). -/
def runPipeline (cfg : Config) (channelTitle : String) (msgs : List Msg)
    (drive : DriveState) : Except StepError RunState :=
  process_channel cfg (clean_filename channelTitle) msgs (initState drive)

/-! ## Ghost observations used by the statements -/

/-- The sequence number the next audio item will receive, given the number
and retention flag of the previous one: the counter advances only when the
item was not discarded as a duplicate (line 243 skips line 262). -/
def advanceSeq (a : Nat × Bool) : Nat := if a.2 then a.1 + 1 else a.1

/-- How many files with fingerprint `f` were passed to `transcribe_audio`. -/
def callCount (st : RunState) (f : String) : Nat :=
  st.transcribeCalls.countP (fun c => decide (c.1 = some f))

/-- How many files with fingerprint `f` were deleted as duplicates. -/
def removedCount (st : RunState) (f : String) : Nat :=
  st.removed.countP (fun r => decide (r.1 = f))

/-- How many entries of the fingerprint index carry key `f`. -/
def keyCount (st : RunState) (f : String) : Nat :=
  st.fileHashes.countP (fun e => decide (e.1 = f))

/-- How many audio-bearing messages of the stream hash to fingerprint `f`. -/
def audioCountF (msgs : List Msg) (f : String) : Nat :=
  msgs.countP (fun m => m.isAudio && decide (m.md5 = some f))

/-- Relation between the sequence counter and the log of assigned sequence
numbers, maintained by every run that starts with counter `c₀`. -/
def SeqInv (c₀ : Nat) (st : RunState) : Prop :=
  st.fileCounter = (match st.seqLog.getLast? with
                    | none => c₀
                    | some a => advanceSeq a) ∧
  List.Chain' (fun a b => b.1 = advanceSeq a) st.seqLog ∧
  (∀ a, st.seqLog.head? = some a → a.1 = c₀)

/-- Relation between the fingerprint index, the transcription calls and the
duplicate deletions, maintained by every run. -/
def HashInv (st : RunState) : Prop :=
  ∀ f, callCount st f = (if (alookup st.fileHashes f).isSome then 1 else 0) ∧
    (0 < removedCount st f → (alookup st.fileHashes f).isSome) ∧
    (∀ p, alookup st.fileHashes f = some p → (some f, p) ∈ st.transcribeCalls) ∧
    keyCount st f = (if (alookup st.fileHashes f).isSome then 1 else 0)

/-! ## Concrete fixtures for witnesses and counterexamples -/

def cfg0 : Config := ⟨"dl", "tr"⟩

def d0 : DriveState := ⟨[], [], 0, 0⟩

/-- An audio message with the given id, fingerprint and transcription
outcome, all external effects succeeding. -/
def msg0 (i : Nat) (h : Option String) (t : Option String) : Msg :=
  { id := i, isAudio := true, fileName := some "a", date := "d", downloadRaises := false,
    md5 := h, removeRaises := false, transcription := t, writeRaises := false, pubEff := okPub }

/-- Three audio items: a fresh file, a byte-identical duplicate of it, and a
second fresh file. -/
def msgsDup : List Msg :=
  [msg0 1 (some "h1") (some "x"), msg0 2 (some "h1") (some "x"), msg0 3 (some "h2") (some "x")]

/-- An audio item whose `download_media` call raises. -/
def msgDlFail : Msg := { msg0 1 (some "h1") (some "x") with downloadRaises := true }

/-- An audio item whose fingerprint computation fails and whose
transcription fails: both failures are contained inside their components. -/
def msgSoftFail : Msg := { msg0 1 none none with fileName := none }

/-- An audio item whose publisher call raises at every step. -/
def msgPubFail : Msg := { msg0 2 (some "h1") (some "x") with pubEff := ⟨true, true, true⟩ }

/-- Two distinct audio items, both transcribed and published. -/
def msgsTwo : List Msg := [msg0 1 (some "h1") (some "x"), msg0 2 (some "h2") (some "y")]

/-- A first file whose transcription fails, followed by a byte-identical
duplicate of it. -/
def msgsFailedFirst : List Msg := [msg0 1 (some "h1") none, msg0 2 (some "h1") (some "x")]

/-- Poll oracle that reports `processing` once and then `error`. -/
def pollsErr : Nat → PollResp :=
  fun n => if n = 0 then PollResp.resp "processing" none else PollResp.resp "error" none

/-- Transcription oracle whose upload and submit succeed and whose job ends
in `status=error`. -/
def oErr : TranscribeOracle := ⟨.ok (200, "u"), .ok (200, "i"), pollsErr⟩

/-- Transcription oracle whose upload raises. -/
def oUploadExn : TranscribeOracle := ⟨.error (), .error (), fun _ => PollResp.exn⟩

/-- Poll responses that stay `processing` twice and then complete. -/
def pollsDone : Nat → PollResp :=
  fun n => if n < 2 then PollResp.resp "processing" none else PollResp.resp "completed" (some "txt")

/-- The fingerprint index after recording a retained item: the fingerprint
is inserted when known (lines 245-246), before transcription is attempted. -/
def hashUpdOf (m : Msg) (st : RunState) (p : String) : List (String × String) :=
  match m.md5 with
  | some f => st.fileHashes ++ [(f, p)]
  | none => st.fileHashes

/-- An audio item that transcribes to `x` but whose publisher lookup
raises. -/
def msgC9 : Msg := { msg0 1 (some "h1") (some "x") with pubEff := ⟨true, false, false⟩ }

/-! ## Lemmas about the filename normalizer -/

lemma cleanChars_eq_map (l : List Char) :
    cleanChars l = l.map (fun c => if c ∈ invalidChars then '_' else c) := by
  induction l with
  | nil => rfl
  | cons c cs ih => simp [cleanChars, ih]

/-- C8: the filename normalizer replaces each character of the disallowed
set (backslash, slash, star, question mark, colon, double quote, angle
brackets, pipe) by one underscore, leaves every other character unchanged
(so the output has the same length, position by position), is a pure
function of its input, and maps the spec's example to `a_b_c_d`. -/
theorem spec_c8 (s : String) :
    (clean_filename s).data = s.data.map (fun c => if c ∈ invalidChars then '_' else c) ∧
    (clean_filename s).data.length = s.data.length ∧
    (∀ i : Nat, (clean_filename s).data[i]? =
      (s.data[i]?).map (fun c => if c ∈ invalidChars then '_' else c)) ∧
    clean_filename "a/b\\c:d" = "a_b_c_d" := by
  refine ⟨cleanChars_eq_map s.data, ?_, ?_, by decide⟩
  · show (cleanChars s.data).length = s.data.length
    rw [cleanChars_eq_map, List.length_map]
  · intro i
    show (cleanChars s.data)[i]? = _
    rw [cleanChars_eq_map, List.getElem?_map]

/-! ## Lemmas about the polling loop and the transcription client -/

lemma pollAux_of_terminal (resps : Nat → PollResp) (r : Option String) :
    ∀ (n i fuel : Nat), (∀ k, k < n → terminalOutcome (resps (i + k)) = none) →
      terminalOutcome (resps (i + n)) = some r → n < fuel →
      pollAux resps fuel i = some (r, 5 * n) := by
  intro n
  induction n with
  | zero =>
    intro i fuel _ hterm hfuel
    match fuel, hfuel with
    | fuel + 1, _ =>
      simp only [pollAux]
      rw [show i + 0 = i from rfl] at hterm
      rw [hterm]
  | succ n ih =>
    intro i fuel hbefore hterm hfuel
    match fuel, hfuel with
    | fuel + 1, hfuel =>
      have h0 : terminalOutcome (resps i) = none := by
        have := hbefore 0 (Nat.succ_pos n)
        rwa [Nat.add_zero] at this
      simp only [pollAux, h0]
      have hb : ∀ k, k < n → terminalOutcome (resps (i + 1 + k)) = none := by
        intro k hk
        have := hbefore (k + 1) (Nat.succ_lt_succ hk)
        rwa [show i + (k + 1) = i + 1 + k by omega] at this
      have ht : terminalOutcome (resps (i + 1 + n)) = some r := by
        rwa [show i + 1 + n = i + (n + 1) by omega]
      rw [ih (i + 1) fuel hb ht (by omega), show 5 * (n + 1) = 5 * n + 5 by omega]
      rfl

lemma pollAux_none_of_no_terminal (resps : Nat → PollResp)
    (h : ∀ n, terminalOutcome (resps n) = none) :
    ∀ (fuel i : Nat), pollAux resps fuel i = none := by
  intro fuel
  induction fuel with
  | zero => intro i; rfl
  | succ fuel ih =>
    intro i
    simp only [pollAux, h i, ih (i + 1)]
    rfl

lemma pollAux_some_terminal (resps : Nat → PollResp) :
    ∀ (fuel i : Nat) (p : Option String × Nat), pollAux resps fuel i = some p →
      ∃ n, (terminalOutcome (resps (i + n))).isSome := by
  intro fuel
  induction fuel with
  | zero => intro i p h; exact absurd h (by simp [pollAux])
  | succ fuel ih =>
    intro i p h
    simp only [pollAux] at h
    cases hterm : terminalOutcome (resps i) with
    | some r => exact ⟨0, by rw [Nat.add_zero, hterm]; rfl⟩
    | none =>
      rw [hterm] at h
      cases hrec : pollAux resps fuel (i + 1) with
      | none => rw [hrec] at h; exact absurd h (by simp)
      | some q =>
        obtain ⟨n, hn⟩ := ih (i + 1) q hrec
        exact ⟨n + 1, by rwa [show i + (n + 1) = i + 1 + n by omega]⟩

lemma terminalOutcome_resp_isSome (s : String) (t : Option String) :
    (terminalOutcome (PollResp.resp s t)).isSome ↔ (s = "completed" ∨ s = "error") := by
  by_cases hc : s = "completed"
  · simp [terminalOutcome, hc]
  · by_cases he : s = "error" <;> simp [terminalOutcome, hc, he]

/-- C7: the polling phase re-fetches status on a fixed 5-time-unit interval
with no poll bound: over any exception-free response sequence, the loop
terminates (for some fuel) exactly when some response has status
`completed` or `error`; when the first terminal response is the `n`-th the
loop ends there having slept `5 * n` time-units with the corresponding
result; and over a sequence with no terminal status it never terminates
(returns `none` at every fuel). -/
theorem spec_c7 (resps : Nat → PollResp) (hstream : ∀ k, resps k ≠ PollResp.exn) :
    ((∃ fuel p, pollAux resps fuel 0 = some p) ↔
      (∃ n s t, resps n = PollResp.resp s t ∧ (s = "completed" ∨ s = "error"))) ∧
    (∀ n r, (∀ k, k < n → terminalOutcome (resps k) = none) →
      terminalOutcome (resps n) = some r →
      ∀ fuel, n < fuel → pollAux resps fuel 0 = some (r, 5 * n)) ∧
    ((∀ n, terminalOutcome (resps n) = none) → ∀ fuel, pollAux resps fuel 0 = none) := by
  have hiff : ∀ n, (terminalOutcome (resps n)).isSome ↔
      (∃ s t, resps n = PollResp.resp s t ∧ (s = "completed" ∨ s = "error")) := by
    intro n
    cases hr : resps n with
    | exn => exact absurd hr (hstream n)
    | resp s t =>
      rw [terminalOutcome_resp_isSome]
      constructor
      · intro h; exact ⟨s, t, rfl, h⟩
      · rintro ⟨s', t', he, h⟩
        cases he
        exact h
  refine ⟨?_, ?_, ?_⟩
  · constructor
    · rintro ⟨fuel, p, hp⟩
      obtain ⟨n, hn⟩ := pollAux_some_terminal resps fuel 0 p hp
      rw [Nat.zero_add] at hn
      exact ⟨n, (hiff n).mp hn⟩
    · rintro ⟨n, s, t, hr, hs⟩
      have hsome : (terminalOutcome (resps n)).isSome := (hiff n).mpr ⟨s, t, hr, hs⟩
      have hex : ∃ m, (terminalOutcome (resps m)).isSome = true := ⟨n, hsome⟩
      have hm : (terminalOutcome (resps (Nat.find hex))).isSome = true := Nat.find_spec hex
      obtain ⟨r, hr'⟩ := Option.isSome_iff_exists.mp hm
      refine ⟨Nat.find hex + 1, (r, 5 * Nat.find hex), ?_⟩
      refine pollAux_of_terminal resps r (Nat.find hex) 0 (Nat.find hex + 1) ?_
        (by simpa using hr') (Nat.lt_succ_self _)
      intro k hk
      have hmin := Nat.find_min hex hk
      rw [Nat.zero_add]
      cases hko : terminalOutcome (resps k) with
      | none => rfl
      | some v => exact absurd (by rw [hko]; rfl) hmin
  · intro n r hbefore hterm fuel hfuel
    have := pollAux_of_terminal resps r n 0 fuel (by simpa using hbefore) (by simpa using hterm) hfuel
    simpa using this
  · intro h fuel
    exact pollAux_none_of_no_terminal resps h fuel 0

/-- Witness for C7: with responses that stay `processing` twice and then
complete, the loop terminates at the third response having slept 10
time-units and returns the transcribed text. -/
theorem spec_c7_witness : pollAux pollsDone 3 0 = some (some "txt", 10) := by
  have hstream : ∀ k, pollsDone k ≠ PollResp.exn := by
    intro k
    unfold pollsDone
    by_cases h : k < 2 <;> simp [h]
  have hbefore : ∀ k, k < 2 → terminalOutcome (pollsDone k) = none := by
    intro k hk
    interval_cases k <;> decide
  exact (spec_c7 pollsDone hstream).2.1 2 (some "txt") hbefore (by decide) 3 (by omega)

/-- C6: the transcription client is total over failures: a non-200 status
on upload or submit returns the `Failed` result (`none`) at once with no
retry, an exception raised in the upload or submit phase is caught and
returns `Failed`, and an exception in the polling phase likewise ends the
job as `Failed`; the function's value type has no exception outcome, so a
single file's transcription failure cannot propagate. -/
theorem spec_c6 (o : TranscribeOracle) (fuel : Nat) :
    (o.uploadResp = Except.error () → transcribe_audio o fuel = some none) ∧
    (∀ c u, o.uploadResp = Except.ok (c, u) → c ≠ 200 → transcribe_audio o fuel = some none) ∧
    (∀ u, o.uploadResp = Except.ok (200, u) → o.submitResp = Except.error () →
      transcribe_audio o fuel = some none) ∧
    (∀ u c i, o.uploadResp = Except.ok (200, u) → o.submitResp = Except.ok (c, i) → c ≠ 200 →
      transcribe_audio o fuel = some none) ∧
    (∀ u i n, o.uploadResp = Except.ok (200, u) → o.submitResp = Except.ok (200, i) →
      (∀ k, k < n → terminalOutcome (o.pollResps k) = none) → o.pollResps n = PollResp.exn →
      n < fuel → transcribe_audio o fuel = some none) := by
  refine ⟨?_, ?_, ?_, ?_, ?_⟩
  · intro h
    simp [transcribe_audio, h]
  · intro c u h hc
    simp [transcribe_audio, h, hc]
  · intro u hu hs
    simp [transcribe_audio, hu, hs]
  · intro u c i hu hs hc
    simp [transcribe_audio, hu, hs, hc]
  · intro u i n hu hs hbefore hexn hn
    have hterm : terminalOutcome (o.pollResps (0 + n)) = some none := by
      rw [Nat.zero_add, hexn]
      rfl
    have hp := pollAux_of_terminal o.pollResps none n 0 fuel
      (fun k hk => by rw [Nat.zero_add]; exact hbefore k hk) hterm hn
    simp [transcribe_audio, hu, hs, hp]

/-- Witness for C6: an oracle whose upload raises yields the `Failed`
result. -/
theorem spec_c6_witness : transcribe_audio oUploadExn 1 = some none :=
  (spec_c6 oUploadExn 1).1 rfl

/-! ## Structural lemmas about the pipeline controller -/

lemma process_channel_append (cfg : Config) (cn : String) (l₁ l₂ : List Msg) (st : RunState) :
    process_channel cfg cn (l₁ ++ l₂) st =
      (match process_channel cfg cn l₁ st with
       | .ok mid => process_channel cfg cn l₂ mid
       | .error e => .error e) := by
  induction l₁ generalizing st with
  | nil => rfl
  | cons m rest ih =>
    simp only [List.cons_append, process_channel]
    cases process_item cfg cn m st with
    | error e => rfl
    | ok st2 => exact ih st2

/-- Complete case analysis of one successful iteration of the loop body:
either the message is not an audio item and the state is untouched, or it
is downloaded and then either discarded as a duplicate (file removed,
counter not advanced) or retained (fingerprint recorded when known, file
passed to transcription, counter advanced), with the transcript written and
published exactly when the transcription result is truthy. -/
lemma process_item_shape (cfg : Config) (cn : String) (m : Msg) (st st' : RunState)
    (h : process_item cfg cn m st = Except.ok st') :
    (m.isAudio = false ∧ st' = st) ∨
    (m.isAudio = true ∧ ∃ p, p = downloadPathOf cfg cn st.fileCounter m ∧
      ((∃ f, m.md5 = some f ∧ (alookup st.fileHashes f).isSome = true ∧
        st' = { st with files := fsRemove (fsAdd st.files p) p,
                        seqLog := st.seqLog ++ [(st.fileCounter, false)],
                        removed := st.removed ++ [(f, p)] }) ∨
      (∃ hashes',
        ((∃ f, m.md5 = some f ∧ (alookup st.fileHashes f).isSome = false ∧
            hashes' = st.fileHashes ++ [(f, p)]) ∨
          (m.md5 = none ∧ hashes' = st.fileHashes)) ∧
        (((m.transcription = none ∨ m.transcription = some "") ∧
          st' = { st with files := fsAdd st.files p,
                          seqLog := st.seqLog ++ [(st.fileCounter, true)],
                          fileHashes := hashes',
                          transcribeCalls := st.transcribeCalls ++ [(m.md5, p)],
                          fileCounter := st.fileCounter + 1 }) ∨
        (∃ text, m.transcription = some text ∧ ¬ text = "" ∧ m.writeRaises = false ∧
          st' = { st with files := fsAdd st.files p,
                          seqLog := st.seqLog ++ [(st.fileCounter, true)],
                          fileHashes := hashes',
                          transcribeCalls := st.transcribeCalls ++ [(m.md5, p)],
                          transcripts := (joinPath cfg.transcriptionDir
                              (fnameOf cn st.fileCounter m ++ ".txt"), text) :: st.transcripts,
                          publishCalls := st.publishCalls ++ [(fnameOf cn st.fileCounter m, text)],
                          drive := (upload_to_google_docs cn (fnameOf cn st.fileCounter m) text
                              m.pubEff st.drive).2,
                          fileCounter := st.fileCounter + 1 }))))) := by
  by_cases ha : m.isAudio = true
  · right
    refine ⟨ha, downloadPathOf cfg cn st.fileCounter m, rfl, ?_⟩
    simp only [process_item, ha, if_true] at h
    cases hdl : m.downloadRaises with
    | true =>
      rw [hdl] at h
      simp at h
    | false =>
      rw [hdl] at h
      simp only [Bool.false_eq_true, if_false] at h
      cases hm : m.md5 with
      | some f =>
        simp only [hm] at h
        by_cases hdup : (alookup st.fileHashes f).isSome
        · left
          rw [if_pos hdup] at h
          cases hrm : m.removeRaises with
          | true => rw [hrm] at h; simp at h
          | false =>
            rw [hrm] at h
            simp only [Bool.false_eq_true, if_false, Except.ok.injEq] at h
            refine ⟨f, rfl, by simpa using hdup, ?_⟩
            rw [← h]
            simp [isDup, hm, hdup, downloadPathOf]
        · right
          rw [if_neg hdup] at h
          refine ⟨st.fileHashes ++ [(f, downloadPathOf cfg cn st.fileCounter m)],
            Or.inl ⟨f, rfl, by simpa using hdup, rfl⟩, ?_⟩
          simp only [transcribeStep] at h
          cases ht : m.transcription with
          | none =>
            simp only [ht] at h
            left
            simp only [Except.ok.injEq] at h
            refine ⟨Or.inl rfl, ?_⟩
            rw [← h]
            simp [isDup, hm, hdup, downloadPathOf]
          | some text =>
            simp only [ht] at h
            by_cases hte : text = ""
            · left
              rw [if_pos hte] at h
              simp only [Except.ok.injEq] at h
              refine ⟨Or.inr (by rw [hte]), ?_⟩
              rw [← h]
              simp [isDup, hm, hdup, downloadPathOf]
            · right
              rw [if_neg hte] at h
              cases hwr : m.writeRaises with
              | true => rw [hwr] at h; simp at h
              | false =>
                rw [hwr] at h
                simp only [Bool.false_eq_true, if_false, Except.ok.injEq] at h
                refine ⟨text, rfl, hte, rfl, ?_⟩
                rw [← h]
                simp [isDup, hm, hdup, downloadPathOf, fnameOf, joinPath]
      | none =>
        simp only [hm] at h
        right
        refine ⟨st.fileHashes, Or.inr ⟨rfl, rfl⟩, ?_⟩
        simp only [transcribeStep] at h
        cases ht : m.transcription with
        | none =>
          simp only [ht] at h
          left
          simp only [Except.ok.injEq] at h
          refine ⟨Or.inl rfl, ?_⟩
          rw [← h]
          simp [isDup, hm, downloadPathOf]
        | some text =>
          simp only [ht] at h
          by_cases hte : text = ""
          · left
            rw [if_pos hte] at h
            simp only [Except.ok.injEq] at h
            refine ⟨Or.inr (by rw [hte]), ?_⟩
            rw [← h]
            simp [isDup, hm, downloadPathOf]
          · right
            rw [if_neg hte] at h
            cases hwr : m.writeRaises with
            | true => rw [hwr] at h; simp at h
            | false =>
              rw [hwr] at h
              simp only [Bool.false_eq_true, if_false, Except.ok.injEq] at h
              refine ⟨text, rfl, hte, rfl, ?_⟩
              rw [← h]
              simp [isDup, hm, downloadPathOf, fnameOf, joinPath]
  · left
    simp only [process_item, if_neg ha, Except.ok.injEq] at h
    exact ⟨by simpa using ha, h.symm⟩

/-- When transcription produced no text, the per-item step writes no
transcript, performs no publisher call, and leaves the document store
untouched. -/
lemma process_item_preserves_of_no_text (cfg : Config) (cn : String) (m : Msg)
    (st st' : RunState) (hnt : m.transcription = none)
    (h : process_item cfg cn m st = Except.ok st') :
    st'.transcripts = st.transcripts ∧ st'.publishCalls = st.publishCalls ∧
      st'.drive = st.drive := by
  rcases process_item_shape cfg cn m st st' h with ⟨_, rfl⟩ | ⟨_, p, hp, hcase⟩
  · exact ⟨rfl, rfl, rfl⟩
  rcases hcase with ⟨f, _, _, rfl⟩ | ⟨hashes', _, halt⟩
  · exact ⟨rfl, rfl, rfl⟩
  rcases halt with ⟨_, rfl⟩ | ⟨text, htext, _, _, rfl⟩
  · exact ⟨rfl, rfl, rfl⟩
  · rw [hnt] at htext
    exact absurd htext (by simp)

/-- C5: a polling phase that reaches `status=error` makes the transcription
client return the `Failed` result (`None`, no transcript text), and on a
`Failed` transcription the controller writes no local transcript file and
never invokes the publisher for that item. -/
theorem spec_c5 (o : TranscribeOracle) (fuel n : Nat) (u i : String) (t : Option String)
    (hu : o.uploadResp = Except.ok (200, u)) (hs : o.submitResp = Except.ok (200, i))
    (herr : o.pollResps n = PollResp.resp "error" t)
    (hbefore : ∀ k, k < n → terminalOutcome (o.pollResps k) = none)
    (hfuel : n < fuel) :
    transcribe_audio o fuel = some none ∧
    (∀ cfg cn m st st', m.transcription = none → process_item cfg cn m st = Except.ok st' →
      st'.transcripts = st.transcripts ∧ st'.publishCalls = st.publishCalls) := by
  constructor
  · have hterm : terminalOutcome (o.pollResps (0 + n)) = some none := by
      rw [Nat.zero_add, herr]
      rfl
    have hp := pollAux_of_terminal o.pollResps none n 0 fuel
      (fun k hk => by rw [Nat.zero_add]; exact hbefore k hk) hterm hfuel
    simp [transcribe_audio, hu, hs, hp]
  · intro cfg cn m st st' hnt h
    have hpr := process_item_preserves_of_no_text cfg cn m st st' hnt h
    exact ⟨hpr.1, hpr.2.1⟩

/-- Witness for C5: a concrete job whose second poll reports `error` yields
the `Failed` result. -/
theorem spec_c5_witness : transcribe_audio oErr 2 = some none := by
  have hbefore : ∀ k, k < 1 → terminalOutcome (oErr.pollResps k) = none := by
    intro k hk
    interval_cases k
    decide
  exact (spec_c5 oErr 2 1 "u" "i" none rfl rfl rfl hbefore (by omega)).1

/-- When none of download, duplicate deletion and transcript writing
raises, the per-item step always succeeds: failures of the fingerprint
computation, of transcription and of publishing are contained inside their
components. -/
lemma process_item_ok_of_no_raises (cfg : Config) (cn : String) (m : Msg) (st : RunState)
    (hdl : m.downloadRaises = false) (hrm : m.removeRaises = false)
    (hwr : m.writeRaises = false) :
    ∃ st', process_item cfg cn m st = Except.ok st' := by
  by_cases ha : m.isAudio = true
  · simp only [process_item, ha, if_true, hdl, Bool.false_eq_true, if_false]
    cases hm : m.md5 with
    | some f =>
      by_cases hdup : (alookup st.fileHashes f).isSome
      · simp only [if_pos hdup, hrm, Bool.false_eq_true, if_false]
        exact ⟨_, rfl⟩
      · simp only [if_neg hdup, transcribeStep]
        cases ht : m.transcription with
        | none => exact ⟨_, rfl⟩
        | some text =>
          by_cases hte : text = ""
          · simp only [if_pos hte]
            exact ⟨_, rfl⟩
          · simp only [if_neg hte, hwr, Bool.false_eq_true, if_false]
            exact ⟨_, rfl⟩
    | none =>
      simp only [transcribeStep]
      cases ht : m.transcription with
      | none => exact ⟨_, rfl⟩
      | some text =>
        by_cases hte : text = ""
        · simp only [if_pos hte]
          exact ⟨_, rfl⟩
        · simp only [if_neg hte, hwr, Bool.false_eq_true, if_false]
          exact ⟨_, rfl⟩
  · exact ⟨st, by simp only [process_item, if_neg ha]⟩

/-- C1 as amended: failures of the fingerprint computation, of
transcription and of publishing are contained inside their components and
the loop continues, so a stream whose items raise no download, deletion or
write exception is always processed to completion; but an exception in
download, duplicate deletion or transcript writing escapes the per-item
boundary and aborts the run (see the counterexample). -/
theorem spec_c1_amended (cfg : Config) (cn : String) (msgs : List Msg) (st : RunState)
    (h : ∀ m ∈ msgs, m.downloadRaises = false ∧ m.removeRaises = false ∧
      m.writeRaises = false) :
    ∃ res, process_channel cfg cn msgs st = Except.ok res := by
  induction msgs generalizing st with
  | nil => exact ⟨st, rfl⟩
  | cons m rest ih =>
    obtain ⟨h1, h2, h3⟩ := h m (List.mem_cons_self m rest)
    obtain ⟨st2, hst2⟩ := process_item_ok_of_no_raises cfg cn m st h1 h2 h3
    obtain ⟨res, hres⟩ := ih st2 (fun m' hm' => h m' (List.mem_cons_of_mem m hm'))
    exact ⟨res, by simp only [process_channel, hst2, hres]⟩

/-- Witness for C1 (amended): a run over an item whose fingerprinting and
transcription both fail followed by an item whose publisher raises at every
step still completes. -/
theorem spec_c1_amended_witness :
    ∃ res, process_channel cfg0 "c" [msgSoftFail, msgPubFail] (initState d0) =
      Except.ok res :=
  spec_c1_amended cfg0 "c" [msgSoftFail, msgPubFail] (initState d0) (by decide)

/-- Counterexample to C1 as stated: in a two-item stream whose first item's
download raises, the exception escapes the per-item boundary and the whole
run aborts (the second item is never processed), although the message
stream itself never failed. -/
theorem spec_c1_counterexample :
    runPipeline cfg0 "c" [msgDlFail, msg0 2 (some "h2") (some "x")] d0 =
      Except.error StepError.downloadError ∧
    (runPipeline cfg0 "c" [msgDlFail, msg0 2 (some "h2") (some "x")] d0).toOption = none :=
  ⟨rfl, rfl⟩

/-! ## The sequence counter (claim C2) -/

lemma seqInv_extend (c₀ : Nat) (st st' : RunState) (b : Bool)
    (hlog : st'.seqLog = st.seqLog ++ [(st.fileCounter, b)])
    (hctr : st'.fileCounter = advanceSeq (st.fileCounter, b))
    (inv : SeqInv c₀ st) : SeqInv c₀ st' := by
  obtain ⟨hc, hchain, hhead⟩ := inv
  refine ⟨?_, ?_, ?_⟩
  · rw [hlog, hctr, List.getLast?_concat]
  · rw [hlog, List.chain'_append]
    refine ⟨hchain, List.chain'_singleton _, ?_⟩
    intro x hx y hy
    simp only [List.head?_cons, Option.mem_def, Option.some.injEq] at hy
    rw [Option.mem_def] at hx
    rw [hx] at hc
    rw [← hy]
    exact hc
  · intro a ha
    rw [hlog, List.head?_append] at ha
    cases hl : st.seqLog.head? with
    | some a' =>
      rw [hl] at ha
      simp only [Option.or_some, Option.some.injEq] at ha
      rw [← ha]
      exact hhead a' hl
    | none =>
      rw [hl] at ha
      simp only [Option.none_or, List.head?_cons, Option.some.injEq] at ha
      have hnil : st.seqLog = [] := List.head?_eq_none_iff.mp hl
      rw [hnil] at hc
      simp only [List.getLast?_nil] at hc
      rw [← ha]
      exact hc

lemma seqInv_step (c₀ : Nat) (cfg : Config) (cn : String) (m : Msg) (st st' : RunState)
    (h : process_item cfg cn m st = Except.ok st') (inv : SeqInv c₀ st) : SeqInv c₀ st' := by
  rcases process_item_shape cfg cn m st st' h with ⟨_, rfl⟩ | ⟨_, p, hp, hcase⟩
  · exact inv
  rcases hcase with ⟨f, _, _, rfl⟩ | ⟨hashes', _, halt⟩
  · exact seqInv_extend c₀ st _ false rfl (by simp [advanceSeq]) inv
  rcases halt with ⟨_, rfl⟩ | ⟨text, _, _, _, rfl⟩
  · exact seqInv_extend c₀ st _ true rfl (by simp [advanceSeq]) inv
  · exact seqInv_extend c₀ st _ true rfl (by simp [advanceSeq]) inv

lemma seqInv_run (c₀ : Nat) (cfg : Config) (cn : String) (msgs : List Msg)
    (st res : RunState) :
    SeqInv c₀ st → process_channel cfg cn msgs st = Except.ok res → SeqInv c₀ res := by
  induction msgs generalizing st with
  | nil =>
    intro inv h
    simp only [process_channel, Except.ok.injEq] at h
    rw [← h]
    exact inv
  | cons m rest ih =>
    intro inv h
    simp only [process_channel] at h
    cases hi : process_item cfg cn m st with
    | error e => rw [hi] at h; exact (Except.noConfusion h)
    | ok st2 =>
      rw [hi] at h
      exact ih st2 (seqInv_step c₀ cfg cn m st st2 hi inv) h

lemma seqLen_run (cfg : Config) (cn : String) (msgs : List Msg) (st res : RunState) :
    process_channel cfg cn msgs st = Except.ok res →
    res.seqLog.length = st.seqLog.length + msgs.countP (fun m => m.isAudio) := by
  induction msgs generalizing st with
  | nil =>
    intro h
    simp only [process_channel, Except.ok.injEq] at h
    rw [← h]
    simp
  | cons m rest ih =>
    intro h
    simp only [process_channel] at h
    cases hi : process_item cfg cn m st with
    | error e => rw [hi] at h; exact (Except.noConfusion h)
    | ok st2 =>
      rw [hi] at h
      have hlen := ih st2 h
      rw [List.countP_cons]
      rcases process_item_shape cfg cn m st st2 hi with ⟨hna, rfl⟩ | ⟨ha, p, hp, hcase⟩
      · simp only [hna, Bool.false_eq_true, if_false]
        omega
      · have h1 : st2.seqLog.length = st.seqLog.length + 1 := by
          rcases hcase with ⟨f, _, _, rfl⟩ | ⟨hashes', _, halt⟩
          · simp
          · rcases halt with ⟨_, rfl⟩ | ⟨text, _, _, _, rfl⟩ <;> simp
        simp only [ha, if_true]
        omega

/-- C2 as amended: a sequence number is assigned (used in the filename)
before the dedupe check, for duplicates included; but the counter advances
only when the item is retained, so after a duplicate discard the same
number is reused by the next audio item: consecutive assignments satisfy
`next = previous + 1` when the previous item was retained and
`next = previous` when it was discarded as a duplicate.  The sequence is
therefore non-decreasing and gap-free, and strictly increasing only across
retained items — not across all processed items. -/
theorem spec_c2_amended (cfg : Config) (title : String) (msgs : List Msg)
    (drive : DriveState) (res : RunState)
    (h : runPipeline cfg title msgs drive = Except.ok res) :
    res.seqLog.length = msgs.countP (fun m => m.isAudio) ∧
    List.Chain' (fun a b => b.1 = advanceSeq a) res.seqLog ∧
    (∀ a, res.seqLog.head? = some a → a.1 = 1) := by
  have hinit : SeqInv 1 (initState drive) :=
    ⟨rfl, List.chain'_nil, fun a ha => by simp [initState] at ha⟩
  have hinv : SeqInv 1 res :=
    seqInv_run 1 cfg (clean_filename title) msgs (initState drive) res hinit h
  have hlen := seqLen_run cfg (clean_filename title) msgs (initState drive) res h
  simp only [initState, List.length_nil, Nat.zero_add] at hlen
  exact ⟨hlen, hinv.2.1, hinv.2.2⟩

/-- Witness for C2 (amended): the duplicate run evaluates and its sequence
log satisfies the amended chain law. -/
theorem spec_c2_amended_witness :
    ∃ res, runPipeline cfg0 "c" msgsDup d0 = Except.ok res ∧
      res.seqLog.length = msgsDup.countP (fun m => m.isAudio) ∧
      List.Chain' (fun a b => b.1 = advanceSeq a) res.seqLog := by
  refine ⟨_, rfl, ?_, ?_⟩
  · exact (spec_c2_amended cfg0 "c" msgsDup d0 _ rfl).1
  · exact (spec_c2_amended cfg0 "c" msgsDup d0 _ rfl).2.1

/-- Counterexample to C2 as stated: with a fresh file, a duplicate of it,
and another fresh file, the assigned sequence numbers are 1, 2, 2 — the
number 2, assigned to the discarded duplicate, is reused for the next item,
so the sequence is not strictly increasing across processed items. -/
theorem spec_c2_counterexample :
    (runPipeline cfg0 "c" msgsDup d0).map (fun r => r.seqLog.map Prod.fst) =
      Except.ok [1, 2, 2] ∧
    ¬ List.Pairwise (fun a b => a < b) [1, 2, 2] := by
  exact ⟨rfl, by decide⟩

/-! ## The fingerprint index (claims C3 and C10) -/

lemma alookup_append_some {β : Type} (l₁ l₂ : List (String × β)) (k : String) (v : β)
    (hl : alookup l₁ k = some v) : alookup (l₁ ++ l₂) k = some v := by
  induction l₁ with
  | nil => exact absurd hl (by simp [alookup])
  | cons e rest ih =>
    by_cases hk : k = e.1
    · simp only [alookup, List.cons_append, if_pos hk] at hl ⊢
      · exact hl
    · simp only [alookup, List.cons_append, if_neg hk] at hl ⊢
      exact ih hl

lemma alookup_append_none {β : Type} (l₁ l₂ : List (String × β)) (k : String)
    (hl : alookup l₁ k = none) : alookup (l₁ ++ l₂) k = alookup l₂ k := by
  induction l₁ with
  | nil => rfl
  | cons e rest ih =>
    by_cases hk : k = e.1
    · simp only [alookup, if_pos hk] at hl
      exact absurd hl (by simp)
    · simp only [alookup, List.cons_append, if_neg hk] at hl ⊢
      exact ih hl

lemma hashInv_init (drive : DriveState) : HashInv (initState drive) := by
  intro f
  refine ⟨rfl, ?_, ?_, rfl⟩
  · intro hpos
    simp [removedCount, initState] at hpos
  · intro p hp
    simp [alookup, initState] at hp

lemma hashInv_step (cfg : Config) (cn : String) (m : Msg) (st st' : RunState)
    (h : process_item cfg cn m st = Except.ok st') (inv : HashInv st) : HashInv st' := by
  rcases process_item_shape cfg cn m st st' h with ⟨_, rfl⟩ | ⟨ha, p, hp, hcase⟩
  · exact inv
  rcases hcase with ⟨f0, hmd, hdup, rfl⟩ | ⟨hashes', hhash, halt⟩
  · -- duplicate branch: only `removed` grows
    intro f
    obtain ⟨i1, i2, i3, i4⟩ := inv f
    by_cases hff : f0 = f
    · subst hff
      exact ⟨i1, fun _ => hdup, i3, i4⟩
    · refine ⟨i1, ?_, i3, i4⟩
      intro hpos
      apply i2
      simpa [removedCount, List.countP_append, List.countP_cons, hff] using hpos
  · -- retained branch
    have hfields : st'.fileHashes = hashes' ∧
        st'.transcribeCalls = st.transcribeCalls ++ [(m.md5, p)] ∧
        st'.removed = st.removed := by
      rcases halt with ⟨_, rfl⟩ | ⟨text, _, _, _, rfl⟩ <;> exact ⟨rfl, rfl, rfl⟩
    obtain ⟨hF, hC, hR⟩ := hfields
    intro f
    obtain ⟨i1, i2, i3, i4⟩ := inv f
    rcases hhash with ⟨f0, hmd, hfresh, hH⟩ | ⟨hmd, hH⟩
    · -- a fresh fingerprint f0 is recorded
      by_cases hff : f0 = f
      · subst hff
        have hlook : alookup st.fileHashes f0 = none := by
          cases hlk : alookup st.fileHashes f0 with
          | none => rfl
          | some v => rw [hlk] at hfresh; simp at hfresh
        have hlook' : alookup st'.fileHashes f0 = some p := by
          rw [hF, hH, alookup_append_none _ _ _ hlook]
          simp [alookup]
        refine ⟨?_, ?_, ?_, ?_⟩
        · rw [callCount, hC, List.countP_append, List.countP_cons, hlook']
          have hold : callCount st f0 = 0 := by
            rw [i1, hlook]
            rfl
          rw [callCount] at hold
          simp [hold, hmd]
        · intro _
          rw [hlook']
          rfl
        · intro q hq
          rw [hlook'] at hq
          rw [hC, hmd]
          simp only [Option.some.injEq] at hq
          rw [← hq]
          simp
        · have hlk2 : alookup (st.fileHashes ++ [(f0, p)]) f0 = some p := by
            rw [alookup_append_none _ _ _ hlook]
            simp [alookup]
          rw [keyCount, hF, hH, List.countP_append, List.countP_cons, hlk2]
          have hold : keyCount st f0 = 0 := by
            rw [i4, hlook]
            rfl
          rw [keyCount] at hold
          simp [hold]
      · -- other fingerprints are untouched
        have hpres : alookup (st.fileHashes ++ [(f0, p)]) f = alookup st.fileHashes f := by
          cases hlk : alookup st.fileHashes f with
          | some v => exact alookup_append_some _ _ _ _ hlk
          | none =>
            rw [alookup_append_none _ _ _ hlk]
            have hfe : ¬ f = f0 := fun hc => hff hc.symm
            simp [alookup, hfe]
        refine ⟨?_, ?_, ?_, ?_⟩
        · rw [callCount, hC, List.countP_append, List.countP_cons, hF, hH, hpres, hmd]
          have hne2 : ¬ (some f0 = some f) := by simpa using hff
          simp [hne2]
          exact i1
        · intro hpos
          rw [hF, hH, hpres]
          apply i2
          rw [removedCount, ← hR]
          exact hpos
        · intro q hq
          rw [hF, hH, hpres] at hq
          rw [hC]
          exact List.mem_append_left _ (i3 q hq)
        · rw [keyCount, hF, hH, List.countP_append, List.countP_cons, hpres]
          simp [hff]
          exact i4
    · -- fingerprint unknown: the index is unchanged
      refine ⟨?_, ?_, ?_, ?_⟩
      · rw [callCount, hC, List.countP_append, List.countP_cons, hF, hH, hmd]
        simp
        exact i1
      · intro hpos
        rw [hF, hH]
        apply i2
        rw [removedCount, ← hR]
        exact hpos
      · intro q hq
        rw [hF, hH] at hq
        rw [hC]
        exact List.mem_append_left _ (i3 q hq)
      · rw [keyCount, hF, hH]
        exact i4

lemma hashInv_run (cfg : Config) (cn : String) (msgs : List Msg) (st res : RunState) :
    HashInv st → process_channel cfg cn msgs st = Except.ok res → HashInv res := by
  induction msgs generalizing st with
  | nil =>
    intro inv h
    simp only [process_channel, Except.ok.injEq] at h
    rw [← h]
    exact inv
  | cons m rest ih =>
    intro inv h
    simp only [process_channel] at h
    cases hi : process_item cfg cn m st with
    | error e => rw [hi] at h; exact (Except.noConfusion h)
    | ok st2 =>
      rw [hi] at h
      exact ih st2 (hashInv_step cfg cn m st st2 hi inv) h

lemma count_run (cfg : Config) (cn : String) (msgs : List Msg) (st res : RunState) :
    process_channel cfg cn msgs st = Except.ok res →
    ∀ f, audioCountF msgs f + callCount st f + removedCount st f =
      callCount res f + removedCount res f := by
  induction msgs generalizing st with
  | nil =>
    intro h f
    simp only [process_channel, Except.ok.injEq] at h
    rw [← h]
    simp [audioCountF]
  | cons m rest ih =>
    intro h f
    simp only [process_channel] at h
    cases hi : process_item cfg cn m st with
    | error e => rw [hi] at h; exact (Except.noConfusion h)
    | ok st2 =>
      rw [hi] at h
      have hrec := ih st2 h f
      have hstep : callCount st2 f + removedCount st2 f =
          callCount st f + removedCount st f +
            (if m.isAudio && decide (m.md5 = some f) then 1 else 0) := by
        rcases process_item_shape cfg cn m st st2 hi with ⟨hna, rfl⟩ | ⟨ha, p, hp, hcase⟩
        · simp [hna]
        · rcases hcase with ⟨f0, hmd, hdup, rfl⟩ | ⟨hashes', hhash, halt⟩
          · simp only [callCount, removedCount, List.countP_append, List.countP_cons,
              List.countP_nil, ha, hmd, Bool.true_and]
            by_cases hff : f0 = f <;> simp [hff] <;> omega
          · have hfields : st2.transcribeCalls = st.transcribeCalls ++ [(m.md5, p)] ∧
                st2.removed = st.removed := by
              rcases halt with ⟨_, rfl⟩ | ⟨text, _, _, _, rfl⟩ <;> exact ⟨rfl, rfl⟩
            rw [callCount, callCount, removedCount, removedCount, hfields.1, hfields.2,
              List.countP_append, List.countP_cons, List.countP_nil, ha]
            simp only [Bool.true_and]
            by_cases hmf : m.md5 = some f <;> simp [hmf] <;> omega
      rw [audioCountF, List.countP_cons]
      rw [audioCountF] at hrec
      omega

lemma hash_persist (cfg : Config) (cn : String) (msgs : List Msg) (st res : RunState) :
    process_channel cfg cn msgs st = Except.ok res →
    ∀ f p, alookup st.fileHashes f = some p → alookup res.fileHashes f = some p := by
  induction msgs generalizing st with
  | nil =>
    intro h f p hp
    simp only [process_channel, Except.ok.injEq] at h
    rw [← h]
    exact hp
  | cons m rest ih =>
    intro h f p hp
    simp only [process_channel] at h
    cases hi : process_item cfg cn m st with
    | error e => rw [hi] at h; exact (Except.noConfusion h)
    | ok st2 =>
      rw [hi] at h
      refine ih st2 h f p ?_
      rcases process_item_shape cfg cn m st st2 hi with ⟨_, rfl⟩ | ⟨ha, q, hq, hcase⟩
      · exact hp
      rcases hcase with ⟨f0, _, _, rfl⟩ | ⟨hashes', hhash, halt⟩
      · exact hp
      have hF : st2.fileHashes = hashes' := by
        rcases halt with ⟨_, rfl⟩ | ⟨text, _, _, _, rfl⟩ <;> rfl
      rcases hhash with ⟨f0, _, _, hH⟩ | ⟨_, hH⟩
      · rw [hF, hH]
        exact alookup_append_some _ _ _ _ hp
      · rw [hF, hH]
        exact hp

lemma callCount_init (drive : DriveState) (f : String) : callCount (initState drive) f = 0 :=
  rfl

lemma removedCount_init (drive : DriveState) (f : String) :
    removedCount (initState drive) f = 0 :=
  rfl

/-- C3: per fingerprint, exactly one file — the first seen — is retained
and passed to the transcription client (none when the fingerprint never
occurs), every later file with the same fingerprint is deleted and skipped
(first conjuncts: the audio items of a fingerprint split into one
transcription call plus deletions), the index holds exactly as many entries
for the fingerprint as there were transcription calls, it maps the
fingerprint to the very file that was transcribed, and that file is the
download of the first audio item bearing the fingerprint. -/
theorem spec_c3 (cfg : Config) (cn : String) (msgs : List Msg) (drive : DriveState)
    (res : RunState) (h : process_channel cfg cn msgs (initState drive) = Except.ok res)
    (f : String) :
    callCount res f = (if 0 < audioCountF msgs f then 1 else 0) ∧
    audioCountF msgs f = callCount res f + removedCount res f ∧
    keyCount res f = callCount res f ∧
    (∀ p, alookup res.fileHashes f = some p → (some f, p) ∈ res.transcribeCalls) ∧
    (∀ pre m post, msgs = pre ++ m :: post → m.isAudio = true → m.md5 = some f →
      audioCountF pre f = 0 →
      ∃ stm, process_channel cfg cn pre (initState drive) = Except.ok stm ∧
        alookup res.fileHashes f = some (downloadPathOf cfg cn stm.fileCounter m)) := by
  have hinv : HashInv res := hashInv_run cfg cn msgs (initState drive) res (hashInv_init drive) h
  obtain ⟨i1, i2, i3, i4⟩ := hinv f
  have hcons := count_run cfg cn msgs (initState drive) res h f
  rw [callCount_init, removedCount_init] at hcons
  have hval : callCount res f = (if 0 < audioCountF msgs f then 1 else 0) := by
    by_cases hpos : 0 < audioCountF msgs f
    · rw [if_pos hpos]
      cases hlk : alookup res.fileHashes f with
      | some v => rw [hlk] at i1; simpa using i1
      | none =>
        exfalso
        rw [hlk] at i1 i2
        have hc0 : callCount res f = 0 := by simpa using i1
        have hr0 : removedCount res f = 0 := by
          by_contra hne
          have := i2 (by omega)
          simp at this
        omega
    · rw [if_neg hpos]
      omega
  refine ⟨hval, by omega, i4.trans i1.symm, i3, ?_⟩
  intro pre m post hsplit ham hmf hpre0
  subst hsplit
  rw [process_channel_append] at h
  cases hpre : process_channel cfg cn pre (initState drive) with
  | error e => rw [hpre] at h; exact (Except.noConfusion h)
  | ok stm =>
    rw [hpre] at h
    refine ⟨stm, rfl, ?_⟩
    have hconsm := count_run cfg cn pre (initState drive) stm hpre f
    rw [callCount_init, removedCount_init, hpre0] at hconsm
    obtain ⟨j1, _, _, _⟩ := hashInv_run cfg cn pre (initState drive) stm (hashInv_init drive) hpre f
    have hlnone : alookup stm.fileHashes f = none := by
      cases hlk : alookup stm.fileHashes f with
      | none => rfl
      | some v =>
        rw [hlk] at j1
        simp at j1
        omega
    simp only [process_channel] at h
    cases hi : process_item cfg cn m stm with
    | error e => rw [hi] at h; exact (Except.noConfusion h)
    | ok st2 =>
      rw [hi] at h
      have h2 : alookup st2.fileHashes f = some (downloadPathOf cfg cn stm.fileCounter m) := by
        rcases process_item_shape cfg cn m stm st2 hi with ⟨hna, _⟩ | ⟨_, p, hp, hcase⟩
        · rw [hna] at ham; exact absurd ham (by simp)
        rcases hcase with ⟨f0, hmd0, hdup0, _⟩ | ⟨hashes', hhash, halt⟩
        · exfalso
          rw [hmf] at hmd0
          injection hmd0 with he
          rw [← he, hlnone] at hdup0
          simp at hdup0
        · have hF : st2.fileHashes = hashes' := by
            rcases halt with ⟨_, rfl⟩ | ⟨text, _, _, _, rfl⟩ <;> rfl
          rcases hhash with ⟨f0, hmd0, _, hH⟩ | ⟨hmd0, _⟩
          · rw [hmf] at hmd0
            injection hmd0 with he
            rw [hF, hH, ← he, hp]
            rw [alookup_append_none _ _ _ hlnone]
            simp [alookup]
          · rw [hmf] at hmd0
            exact absurd hmd0 (by simp)
      exact hash_persist cfg cn post st2 res h f _ h2

/-- Witness for C3: in the duplicate run, fingerprint `h1` (borne by two
files) produces exactly one transcription call and one deletion. -/
theorem spec_c3_witness :
    ∃ res, process_channel cfg0 "c" msgsDup (initState d0) = Except.ok res ∧
      callCount res "h1" = 1 ∧ removedCount res "h1" = 1 := by
  obtain ⟨res, hres⟩ : ∃ res, process_channel cfg0 "c" msgsDup (initState d0) =
      Except.ok res := ⟨_, rfl⟩
  refine ⟨res, hres, ?_, ?_⟩
  · rw [(spec_c3 cfg0 "c" msgsDup d0 res hres "h1").1]
    decide
  · have hc := spec_c3 cfg0 "c" msgsDup d0 res hres "h1"
    have h2 := hc.2.1
    rw [hc.1] at h2
    have h3 : audioCountF msgsDup "h1" = 2 := by decide
    rw [h3] at h2
    simp only [Nat.zero_lt_succ, if_pos] at h2
    omega

/-- C10: the fingerprint is recorded in the index before transcription is
attempted, so when the first file bearing a fingerprint fails to transcribe
the fingerprint still maps, for the rest of the run, to that file's
download path, the fingerprint produced exactly one transcription call in
the whole run, and every later audio item with the same fingerprint was
deleted as a duplicate — content whose first transcription attempt failed
is never transcribed again within the run. -/
theorem spec_c10 (cfg : Config) (cn : String) (pre post : List Msg) (m : Msg)
    (drive : DriveState) (res : RunState) (f : String)
    (h : process_channel cfg cn (pre ++ m :: post) (initState drive) = Except.ok res)
    (ham : m.isAudio = true) (hmf : m.md5 = some f) (hpre0 : audioCountF pre f = 0)
    (hfail : m.transcription = none) :
    ∃ stm, process_channel cfg cn pre (initState drive) = Except.ok stm ∧
      alookup res.fileHashes f = some (downloadPathOf cfg cn stm.fileCounter m) ∧
      callCount res f = 1 ∧
      removedCount res f = audioCountF post f := by
  have hc := spec_c3 cfg cn (pre ++ m :: post) drive res h f
  obtain ⟨stm, hstm, hmap⟩ := hc.2.2.2.2 pre m post rfl ham hmf hpre0
  have hsplit : audioCountF (pre ++ m :: post) f =
      audioCountF pre f + audioCountF post f + 1 := by
    rw [audioCountF, audioCountF, audioCountF, List.countP_append, List.countP_cons]
    simp [ham, hmf]
    omega
  have hposc : 0 < audioCountF (pre ++ m :: post) f := by
    rw [hsplit]
    omega
  have hcall : callCount res f = 1 := by
    rw [hc.1, if_pos hposc]
  have hsum := hc.2.1
  rw [hsplit, hpre0, hcall] at hsum
  exact ⟨stm, hstm, hmap, hcall, by omega⟩

/-- Witness for C10: with a file whose transcription fails followed by a
byte-identical duplicate, the fingerprint is still indexed, exactly one
transcription call happened, and the duplicate was deleted. -/
theorem spec_c10_witness :
    ∃ res, process_channel cfg0 "c" msgsFailedFirst (initState d0) = Except.ok res ∧
      callCount res "h1" = 1 ∧ removedCount res "h1" = 1 := by
  obtain ⟨res, hres⟩ : ∃ res, process_channel cfg0 "c" msgsFailedFirst (initState d0) =
      Except.ok res := ⟨_, rfl⟩
  obtain ⟨stm, _, _, hcall, hrem⟩ := spec_c10 cfg0 "c" [] [msg0 2 (some "h1") (some "x")]
    (msg0 1 (some "h1") none) d0 res "h1" hres rfl rfl rfl rfl
  refine ⟨res, hres, hcall, ?_⟩
  rw [hrem]
  decide

/-! ## The publisher's document resolution (claim C4) -/

lemma findDoc_none_of_forall (l : List (Nat × String)) (name : String)
    (h : ∀ d ∈ l, ¬ d.2 = name) : findDoc l name = none := by
  induction l with
  | nil => rfl
  | cons d rest ih =>
    simp only [findDoc, if_neg (h d (List.mem_cons_self d rest))]
    exact ih (fun d' hd' => h d' (List.mem_cons_of_mem d hd'))

lemma findDoc_append_none (l₁ l₂ : List (Nat × String)) (name : String)
    (h : findDoc l₁ name = none) : findDoc (l₁ ++ l₂) name = findDoc l₂ name := by
  induction l₁ with
  | nil => rfl
  | cons d rest ih =>
    by_cases hd : d.2 = name
    · simp only [findDoc, if_pos hd] at h
      exact absurd h (by simp)
    · simp only [findDoc, List.cons_append, if_neg hd] at h ⊢
      exact ih h

/-- C4 as amended: the document handle is re-resolved via find-or-create on
every publisher call — it is not cached.  For a channel with no existing
document, the first successful call creates exactly one document and
returns its id; the second successful call finds that document again (one
more lookup against the store, bringing the query count to two) and reuses
the same id without creating another document. -/
theorem spec_c4_amended (ch a1 t1 a2 t2 : String) (st : DriveState)
    (habs : ∀ d ∈ st.docs, ¬ d.2 = docName ch) :
    (upload_to_google_docs ch a1 t1 okPub st).1 = some st.nextId ∧
    (upload_to_google_docs ch a1 t1 okPub st).2.docs =
      st.docs ++ [(st.nextId, docName ch)] ∧
    (upload_to_google_docs ch a2 t2 okPub (upload_to_google_docs ch a1 t1 okPub st).2).1 =
      some st.nextId ∧
    (upload_to_google_docs ch a2 t2 okPub
        (upload_to_google_docs ch a1 t1 okPub st).2).2.docs =
      (upload_to_google_docs ch a1 t1 okPub st).2.docs ∧
    (upload_to_google_docs ch a2 t2 okPub
        (upload_to_google_docs ch a1 t1 okPub st).2).2.lookups = st.lookups + 2 := by
  have h0 : findDoc st.docs (docName ch) = none := findDoc_none_of_forall _ _ habs
  have h1 : upload_to_google_docs ch a1 t1 okPub st =
      (some st.nextId,
        { docs := st.docs ++ [(st.nextId, docName ch)],
          contents := insertBlock st.contents st.nextId (formatBlock a1 t1),
          nextId := st.nextId + 1,
          lookups := st.lookups + 1 }) := by
    simp [upload_to_google_docs, okPub, h0]
  have hfind2 : findDoc (st.docs ++ [(st.nextId, docName ch)]) (docName ch) =
      some (st.nextId, docName ch) := by
    rw [findDoc_append_none _ _ _ h0]
    simp [findDoc]
  rw [h1]
  refine ⟨rfl, rfl, ?_, ?_, ?_⟩ <;>
    simp [upload_to_google_docs, okPub, hfind2]

/-- Witness for C4 (amended): against an empty document store, the first
call creates document 0 and the second call reuses it, with two lookups in
total. -/
theorem spec_c4_amended_witness :
    (upload_to_google_docs "c" "a" "t" okPub d0).1 = some 0 ∧
    (upload_to_google_docs "c" "b" "u" okPub
      (upload_to_google_docs "c" "a" "t" okPub d0).2).2.lookups = 2 := by
  have hc := spec_c4_amended "c" "a" "t" "b" "u" d0 (by decide)
  exact ⟨hc.1, hc.2.2.2.2⟩

/-- Counterexample to C4 as stated: in a run that publishes two
transcriptions for the same channel, the document store is queried twice —
the handle is resolved on every publisher call, not at most once, so it is
not cached for the remainder of the run. -/
theorem spec_c4_counterexample :
    (runPipeline cfg0 "c" msgsTwo d0).map (fun r => decide (r.drive.lookups ≤ 1)) =
      Except.ok false ∧
    (runPipeline cfg0 "c" msgsTwo d0).map (fun r => r.drive.lookups) = Except.ok 2 :=
  ⟨rfl, rfl⟩

/-! ## Publish failure isolation (claim C9) -/

lemma upload_fst_none_of_lookupRaises (cn an t : String) (e : PubEffects) (st : DriveState)
    (h : e.lookupRaises = true) : (upload_to_google_docs cn an t e st).1 = none := by
  simp [upload_to_google_docs, h]

lemma upload_fst_none_of_appendRaises (cn an t : String) (e : PubEffects) (st : DriveState)
    (h : e.appendRaises = true) : (upload_to_google_docs cn an t e st).1 = none := by
  by_cases hl : e.lookupRaises = true
  · simp [upload_to_google_docs, hl]
  · cases hf : findDoc st.docs (docName cn) with
    | none =>
      by_cases hc : e.createRaises = true
      · simp [upload_to_google_docs, hl, hf, hc]
      · simp [upload_to_google_docs, hl, hf, hc, h]
    | some d => simp [upload_to_google_docs, hl, hf, h]

/-- One successful iteration over a retained item with a truthy
transcription: the transcript is written and the publisher is invoked, all
in one step whose full result state is spelled out. -/
lemma process_item_publish (cfg : Config) (cn : String) (m : Msg) (st : RunState)
    (text : String) (ha : m.isAudio = true) (hdl : m.downloadRaises = false)
    (hwr : m.writeRaises = false) (htr : m.transcription = some text) (hne : ¬ text = "")
    (hnd : isDup m st = false) :
    process_item cfg cn m st = Except.ok
      { st with files := fsAdd st.files (downloadPathOf cfg cn st.fileCounter m),
                seqLog := st.seqLog ++ [(st.fileCounter, true)],
                fileHashes := hashUpdOf m st (downloadPathOf cfg cn st.fileCounter m),
                transcribeCalls := st.transcribeCalls ++
                  [(m.md5, downloadPathOf cfg cn st.fileCounter m)],
                transcripts := (transcriptPathOf cfg cn st.fileCounter m, text) ::
                  st.transcripts,
                publishCalls := st.publishCalls ++ [(fnameOf cn st.fileCounter m, text)],
                drive := (upload_to_google_docs cn (fnameOf cn st.fileCounter m) text
                  m.pubEff st.drive).2,
                fileCounter := st.fileCounter + 1 } := by
  simp only [process_item, ha, if_true, hdl, Bool.false_eq_true, if_false]
  cases hm : m.md5 with
  | some f =>
    have hlook : (alookup st.fileHashes f).isSome = false := by
      have h' := hnd
      simp only [isDup, hm] at h'
      exact h'
    simp only [hlook, Bool.false_eq_true, if_false, transcribeStep, htr, hne, if_neg hne,
      hwr, hashUpdOf, hm, hnd, Bool.not_false]
    rfl
  | none =>
    have hd2 : isDup m st = false := hnd
    simp only [transcribeStep, htr, hne, if_neg hne, hwr, Bool.false_eq_true, if_false,
      hashUpdOf, hm, hnd, Bool.not_false]
    rfl

/-- C9: for an item whose transcription succeeds, the transcript is part of
local storage in the very step that publishes (and the publisher receives
the already-written text); a publishing failure at lookup or append is
caught and returns the `None` failure signal; the run state after the item
— counter, hash index, files, sequence log, transcription calls, deletions,
transcripts and publish log — is identical whatever the publisher's
exception behaviour, so a publishing failure leaves the written transcript
in place and changes nothing but the external document store; and
processing always continues with the next message. -/
theorem spec_c9 (cfg : Config) (cn : String) (m : Msg) (st : RunState) (text : String)
    (ha : m.isAudio = true) (hdl : m.downloadRaises = false) (hwr : m.writeRaises = false)
    (htr : m.transcription = some text) (hne : ¬ text = "") (hnd : isDup m st = false) :
    ∃ st', process_item cfg cn m st = Except.ok st' ∧
      alookup st'.transcripts (transcriptPathOf cfg cn st.fileCounter m) = some text ∧
      st'.publishCalls = st.publishCalls ++ [(fnameOf cn st.fileCounter m, text)] ∧
      st'.drive = (upload_to_google_docs cn (fnameOf cn st.fileCounter m) text
        m.pubEff st.drive).2 ∧
      (∀ e', ∃ st2, process_item cfg cn { m with pubEff := e' } st = Except.ok st2 ∧
        st2.transcripts = st'.transcripts ∧ st2.fileCounter = st'.fileCounter ∧
        st2.fileHashes = st'.fileHashes ∧ st2.files = st'.files ∧
        st2.seqLog = st'.seqLog ∧ st2.transcribeCalls = st'.transcribeCalls ∧
        st2.removed = st'.removed ∧ st2.publishCalls = st'.publishCalls) ∧
      (m.pubEff.lookupRaises = true →
        (upload_to_google_docs cn (fnameOf cn st.fileCounter m) text
          m.pubEff st.drive).1 = none) ∧
      (m.pubEff.appendRaises = true →
        (upload_to_google_docs cn (fnameOf cn st.fileCounter m) text
          m.pubEff st.drive).1 = none) ∧
      (∀ rest, process_channel cfg cn (m :: rest) st = process_channel cfg cn rest st') := by
  have hmain := process_item_publish cfg cn m st text ha hdl hwr htr hne hnd
  refine ⟨_, hmain, ?_, rfl, rfl, ?_, ?_, ?_, ?_⟩
  · simp [alookup]
  · intro e'
    have h2 := process_item_publish cfg cn { m with pubEff := e' } st text ha hdl hwr htr
      hne hnd
    exact ⟨_, h2, rfl, rfl, rfl, rfl, rfl, rfl, rfl, rfl⟩
  · intro hl
    exact upload_fst_none_of_lookupRaises _ _ _ _ _ hl
  · intro hap
    exact upload_fst_none_of_appendRaises _ _ _ _ _ hap
  · intro rest
    simp only [process_channel, hmain]

/-- Witness for C9: a concrete item whose publisher lookup raises still has
its transcript written locally and its drive state equals the failed
publish call's result. -/
theorem spec_c9_witness :
    ∃ st', process_item cfg0 "c" msgC9 (initState d0) = Except.ok st' ∧
      alookup st'.transcripts (transcriptPathOf cfg0 "c" 1 msgC9) = some "x" ∧
      st'.drive = (upload_to_google_docs "c" (fnameOf "c" 1 msgC9) "x"
        msgC9.pubEff d0).2 := by
  obtain ⟨st', hok, hal, _, hdr, _, _, _, _⟩ :=
    spec_c9 cfg0 "c" msgC9 (initState d0) "x" rfl rfl rfl rfl (by decide) rfl
  exact ⟨st', hok, hal, hdr⟩

end AudioTranscriber

